import Mathlib

/-!
Verification development for the pyrddl core (src/pyrddl/expr.py and
src/pyrddl/domain.py).

The Python AST nodes are nested tagged tuples whose elements may be strings,
numbers, booleans, `None`, further tuples / lists, or wrapped `Expression`
objects.  We model a Python value by the inductive `PyVal`: Python tuples and
lists are both encoded as `vcons`-chains terminated by `vnil`, and an
`Expression` object wrapping a node `n` appearing *inside* a tuple is encoded
as `vexpr n`.  A top-level `Expression` object is the structure `Expression`
holding its `_expr` node.

A Python exception propagating out of a method is modelled as `none` (for
functions where only structural exceptions such as `IndexError`, `TypeError`
or `AttributeError` can occur) or as `Except.error` with an `Err` tag (for
`name` / `value`, where the source distinguishes a deliberately raised
`ValueError` from structural failures).  Two deliberate modelling
restrictions, both away from every input exercised here: subscripting a
Python string (which yields a one-character string) is not modelled, and a
`pvar_expr` functor that is not a string is mapped to a structural error
(formatting such a functor cannot occur in parser output).
-/

inductive Err where
  | value : Err
  | other : Err
deriving DecidableEq

inductive PyVal where
  | vstr  : String → PyVal
  | vint  : Int → PyVal
  | vbool : Bool → PyVal
  | vnone : PyVal
  | vnil  : PyVal
  | vcons : PyVal → PyVal → PyVal
  | vexpr : PyVal → PyVal
deriving DecidableEq

/-- An `Expression` object: `node` is the wrapped `_expr` tuple. -/
structure Expression where
  node : PyVal
deriving DecidableEq

/-- Build a tuple value (a `vcons`-chain) from a list of elements. -/
def tup (xs : List PyVal) : PyVal := xs.foldr PyVal.vcons PyVal.vnil

/-- `v[i]` for a tuple value; on an `Expression` object subscripting
delegates to the wrapped node (`Expression.__getitem__`). -/
def pyIdx : PyVal → Nat → Option PyVal
  | PyVal.vcons h _, 0 => some h
  | PyVal.vcons _ t, n + 1 => pyIdx t n
  | PyVal.vexpr node, n => pyIdx node n
  | _, _ => none

/-- `len(v)`: length of a tuple/list chain, length of a string; a
`TypeError` (modelled `none`) for every other value. -/
def pyLen : PyVal → Option Nat
  | PyVal.vnil => some 0
  | PyVal.vcons _ t => (pyLen t).map (· + 1)
  | PyVal.vstr s => some s.length
  | _ => none

/-- The apostrophe character, kept out of string literals. -/
def primeChar : Char := Char.ofNat 39

def quoteStr : String := String.singleton primeChar

/-- `str(type(v))` for the payload of a constant node. -/
def pyTypeName : PyVal → String
  | PyVal.vstr _ => "<class " ++ quoteStr ++ "str" ++ quoteStr ++ ">"
  | PyVal.vint _ => "<class " ++ quoteStr ++ "int" ++ quoteStr ++ ">"
  | PyVal.vbool _ => "<class " ++ quoteStr ++ "bool" ++ quoteStr ++ ">"
  | PyVal.vnone => "<class " ++ quoteStr ++ "NoneType" ++ quoteStr ++ ">"
  | PyVal.vnil => "<class " ++ quoteStr ++ "tuple" ++ quoteStr ++ ">"
  | PyVal.vcons _ _ => "<class " ++ quoteStr ++ "tuple" ++ quoteStr ++ ">"
  | PyVal.vexpr _ => "<class " ++ quoteStr ++ "Expression" ++ quoteStr ++ ">"

/-- `Expression.etype` (expr.py lines 40-76): classify the node by its
leading tag.  `none` models a propagated exception (e.g. an `IndexError`
on a node with a missing position). -/
def Expression.etype (e : Expression) : Option (String × String) :=
  match pyIdx e.node 0 with
  | none => none
  | some tag =>
    if tag = PyVal.vstr "number" ∨ tag = PyVal.vstr "boolean" then
      match pyIdx e.node 1 with
      | none => none
      | some v => some ("constant", pyTypeName v)
    else if tag = PyVal.vstr "pvar_expr" then
      match pyIdx e.node 1 with
      | none => none
      | some p =>
        match pyIdx p 0 with
        | some (PyVal.vstr s) => some ("pvar", s)
        | _ => none
    else if tag = PyVal.vstr "penum_expr" then
      match pyIdx e.node 1 with
      | none => none
      | some p =>
        match pyIdx p 0 with
        | some (PyVal.vstr s) => some ("penum", s)
        | _ => none
    else if tag = PyVal.vstr "randomvar" then
      match pyIdx e.node 1 with
      | none => none
      | some p =>
        match pyIdx p 0 with
        | some (PyVal.vstr s) => some ("randomvar", s)
        | _ => none
    else if tag = PyVal.vstr "+" ∨ tag = PyVal.vstr "-" ∨
            tag = PyVal.vstr "*" ∨ tag = PyVal.vstr "/" then
      match tag with
      | PyVal.vstr op => some ("arithmetic", op)
      | _ => none
    else if tag = PyVal.vstr "^" ∨ tag = PyVal.vstr "&" ∨
            tag = PyVal.vstr "|" ∨ tag = PyVal.vstr "~" ∨
            tag = PyVal.vstr "=>" ∨ tag = PyVal.vstr "<=>" then
      match tag with
      | PyVal.vstr op => some ("boolean", op)
      | _ => none
    else if tag = PyVal.vstr ">=" ∨ tag = PyVal.vstr "<=" ∨
            tag = PyVal.vstr "<" ∨ tag = PyVal.vstr ">" ∨
            tag = PyVal.vstr "==" ∨ tag = PyVal.vstr "~=" then
      match tag with
      | PyVal.vstr op => some ("relational", op)
      | _ => none
    else if tag = PyVal.vstr "func" then
      match pyIdx e.node 1 with
      | none => none
      | some p =>
        match pyIdx p 0 with
        | some (PyVal.vstr s) => some ("func", s)
        | _ => none
    else if tag = PyVal.vstr "sum" then some ("aggregation", "sum")
    else if tag = PyVal.vstr "prod" then some ("aggregation", "prod")
    else if tag = PyVal.vstr "avg" then some ("aggregation", "avg")
    else if tag = PyVal.vstr "max" then some ("aggregation", "maximum")
    else if tag = PyVal.vstr "min" then some ("aggregation", "minimum")
    else if tag = PyVal.vstr "forall" then some ("aggregation", "forall")
    else if tag = PyVal.vstr "exists" then some ("aggregation", "exists")
    else if tag = PyVal.vstr "if" then some ("control", "if")
    else some ("UNKOWN", "UNKOWN")

/-- `Expression.args` (expr.py lines 78-102): the category-specific
payload; an empty list for an unrecognized leading tag. -/
def Expression.args (e : Expression) : Option PyVal :=
  match pyIdx e.node 0 with
  | none => none
  | some tag =>
    if tag = PyVal.vstr "number" ∨ tag = PyVal.vstr "boolean" then
      pyIdx e.node 1
    else if tag = PyVal.vstr "pvar_expr" then
      pyIdx e.node 1
    else if tag = PyVal.vstr "penum_expr" then
      pyIdx e.node 1
    else if tag = PyVal.vstr "randomvar" then
      match pyIdx e.node 1 with
      | none => none
      | some p => pyIdx p 1
    else if tag = PyVal.vstr "+" ∨ tag = PyVal.vstr "-" ∨
            tag = PyVal.vstr "*" ∨ tag = PyVal.vstr "/" then
      pyIdx e.node 1
    else if tag = PyVal.vstr "^" ∨ tag = PyVal.vstr "&" ∨
            tag = PyVal.vstr "|" ∨ tag = PyVal.vstr "~" ∨
            tag = PyVal.vstr "=>" ∨ tag = PyVal.vstr "<=>" then
      pyIdx e.node 1
    else if tag = PyVal.vstr ">=" ∨ tag = PyVal.vstr "<=" ∨
            tag = PyVal.vstr "<" ∨ tag = PyVal.vstr ">" ∨
            tag = PyVal.vstr "==" ∨ tag = PyVal.vstr "~=" then
      pyIdx e.node 1
    else if tag = PyVal.vstr "func" then
      match pyIdx e.node 1 with
      | none => none
      | some p => pyIdx p 1
    else if tag = PyVal.vstr "sum" ∨ tag = PyVal.vstr "prod" ∨
            tag = PyVal.vstr "avg" ∨ tag = PyVal.vstr "max" ∨
            tag = PyVal.vstr "min" ∨ tag = PyVal.vstr "forall" ∨
            tag = PyVal.vstr "exists" then
      pyIdx e.node 1
    else if tag = PyVal.vstr "if" then
      pyIdx e.node 1
    else some PyVal.vnil

/-- `Expression.is_constant_expression` (expr.py lines 104-106). -/
def Expression.is_constant_expression (e : Expression) : Option Bool :=
  (e.etype).map (fun t => t.1 = "constant")

/-- `Expression.is_pvariable_expression` (expr.py lines 108-110). -/
def Expression.is_pvariable_expression (e : Expression) : Option Bool :=
  (e.etype).map (fun t => t.1 = "pvar")

/-- `Expression._pvar_to_name` (expr.py lines 196-205): `functor/arity`
with arity the parameter-list length, or 0 when the parameter list is
`None`. -/
def pvar_to_name (pvar_expr : PyVal) : Option String :=
  match pyIdx pvar_expr 0 with
  | some (PyVal.vstr functor) =>
    match pyIdx pvar_expr 1 with
    | none => none
    | some PyVal.vnone => some (functor ++ "/0")
    | some params =>
      match pyLen params with
      | none => none
      | some a => some (functor ++ "/" ++ toString a)
  | _ => none

/-- `Expression.name` (expr.py lines 112-124): a `ValueError` on a
non-pvariable expression, otherwise `functor/arity`. -/
def Expression.name (e : Expression) : Except Err String :=
  match e.is_pvariable_expression with
  | none => Except.error Err.other
  | some false => Except.error Err.value
  | some true =>
    match e.args with
    | none => Except.error Err.other
    | some a =>
      match pvar_to_name a with
      | none => Except.error Err.other
      | some s => Except.ok s

/-- `Expression.value` (expr.py lines 126-138): a `ValueError` on a
non-constant expression, otherwise the wrapped literal. -/
def Expression.value (e : Expression) : Except Err PyVal :=
  match e.is_constant_expression with
  | none => Except.error Err.other
  | some false => Except.error Err.value
  | some true =>
    match e.args with
    | none => Except.error Err.other
    | some a => Except.ok a

/-- Union of two Python sets, represented as duplicate-free lists:
keep the left list and the members of the right list not already
present. -/
def sunion (s t : List String) : List String :=
  s ++ t.filter (fun x => decide (¬ x ∈ s))

/-- `Expression.__get_scope` (expr.py lines 171-194).  The argument is the
sequence being iterated.  Walk the positions in order: recurse into wrapped
`Expression` objects and into raw tuples/lists, and on the literal tag
`pvar_expr` read the *next* position as the `(functor, params)` pair, record
`functor/arity`, and stop scanning the remaining positions of this node. -/
def getScope : PyVal → Option (List String)
  | PyVal.vnil => some []
  | PyVal.vcons (PyVal.vexpr node) rest =>
    match getScope node with
    | none => none
    | some s =>
      match getScope rest with
      | none => none
      | some t => some (sunion s t)
  | PyVal.vcons (PyVal.vcons h tl) rest =>
    match getScope (PyVal.vcons h tl) with
    | none => none
    | some s =>
      match getScope rest with
      | none => none
      | some t => some (sunion s t)
  | PyVal.vcons PyVal.vnil rest => getScope rest
  | PyVal.vcons (PyVal.vstr s) rest =>
    if s = "pvar_expr" then
      match rest with
      | PyVal.vcons (PyVal.vcons functor (PyVal.vcons params PyVal.vnil)) _ =>
        match functor with
        | PyVal.vstr f =>
          match params with
          | PyVal.vnone => some [f ++ "/0"]
          | _ =>
            match pyLen params with
            | none => none
            | some a => some [f ++ "/" ++ toString a]
        | _ => none
      | _ => none
    else getScope rest
  | PyVal.vcons _ rest => getScope rest
  | PyVal.vstr _ => some []
  | PyVal.vexpr node => getScope node
  | _ => none

/-- `Expression.scope` (expr.py lines 162-169). -/
def Expression.scope (e : Expression) : Option (List String) :=
  getScope e.node

deriving instance DecidableEq for Except

/-! ## The Domain model (src/pyrddl/domain.py)

`PVariable` declarations, `CPF` objects and `pyrddl.utils` are consumed by
`domain.py` but are not among the provided sources; the spec treats them as
an input boundary.  They are modelled from the spec below.  Python `dict`s
(insertion-ordered, last write wins, key position kept on overwrite) are
modelled as association lists with `dinsert` / `dget` / `dkeys`. -/

inductive Role where
  | nonFluent : Role
  | stateFluent : Role
  | actionFluent : Role
  | intermFluent : Role
  | observFluent : Role
deriving DecidableEq

/-- Modelled from the spec: the PVariable declaration model
(src/pyrddl/pvariable.py is not among the provided sources).  Per the spec
it exposes the role predicates `is_non_fluent` / `is_state_fluent` /
`is_action_fluent` / `is_intermediate_fluent` / `is_observ_fluent`, an
integer `level` (meaningful for intermediate fluents) and a canonical
string form `str(pvar)`, held here in `name`. -/
structure PVariable where
  name : String
  role : Role
  level : Int
deriving DecidableEq

def PVariable.is_non_fluent (p : PVariable) : Bool := p.role = Role.nonFluent
def PVariable.is_state_fluent (p : PVariable) : Bool := p.role = Role.stateFluent
def PVariable.is_action_fluent (p : PVariable) : Bool := p.role = Role.actionFluent
def PVariable.is_intermediate_fluent (p : PVariable) : Bool := p.role = Role.intermFluent
def PVariable.is_observ_fluent (p : PVariable) : Bool := p.role = Role.observFluent

/-- Modelled from the spec: a CPF object (src/pyrddl/cpf.py is not among the
provided sources) exposing `.name`; its expression body is never read by
the code modelled here. -/
structure CPF where
  name : String
deriving DecidableEq

/-- The Domain sections (domain.py lines 51-62).  `cpfs` holds only the
cpf list of the `(root marker, list)` pair: the root marker is discarded
by every accessor modelled here. -/
structure Domain where
  name : String
  requirements : List String
  pvariables : List PVariable
  cpfs : List CPF
  reward : Expression
  preconds : List Expression
  invariants : List Expression
  constraints : List Expression
deriving DecidableEq

/-- Insert into a Python dict: overwrite the value in place when the key
is present, append otherwise. -/
def dinsert {α : Type} (k : String) (v : α) : List (String × α) → List (String × α)
  | [] => [(k, v)]
  | (k', v') :: rest =>
    if k' = k then (k, v) :: rest else (k', v') :: dinsert k v rest

/-- Dict lookup. -/
def dget {α : Type} (k : String) : List (String × α) → Option α
  | [] => none
  | (k', v) :: rest => if k' = k then some v else dget k rest

/-- Dict keys, in insertion order. -/
def dkeys {α : Type} (l : List (String × α)) : List String := l.map Prod.fst

/-- A `{str(pvar): pvar for pvar in self.pvariables if pred pvar}`
comprehension. -/
def roleTable (pred : PVariable → Bool) (pvs : List PVariable) :
    List (String × PVariable) :=
  (pvs.filter pred).foldl (fun t p => dinsert p.name p t) []

/-- `Domain.non_fluents` (domain.py lines 138-141). -/
def Domain.non_fluents (d : Domain) : List (String × PVariable) :=
  roleTable PVariable.is_non_fluent d.pvariables

/-- `Domain.state_fluents` (domain.py lines 143-146). -/
def Domain.state_fluents (d : Domain) : List (String × PVariable) :=
  roleTable PVariable.is_state_fluent d.pvariables

/-- `Domain.action_fluents` (domain.py lines 148-151). -/
def Domain.action_fluents (d : Domain) : List (String × PVariable) :=
  roleTable PVariable.is_action_fluent d.pvariables

/-- `Domain.intermediate_fluents` (domain.py lines 153-156). -/
def Domain.intermediate_fluents (d : Domain) : List (String × PVariable) :=
  roleTable PVariable.is_intermediate_fluent d.pvariables

/-- `Domain.observ_fluents` (domain.py lines 158-161). -/
def Domain.observ_fluents (d : Domain) : List (String × PVariable) :=
  roleTable PVariable.is_observ_fluent d.pvariables

/-! ### Sorting

Python's `sorted` is an ascending stable sort; it is modelled by a stable
insertion sort parameterized by a boolean `x stays before y` test. -/

def insSorted {α : Type} (le : α → α → Bool) (x : α) : List α → List α
  | [] => [x]
  | y :: ys => if le x y then x :: y :: ys else y :: insSorted le x ys

def sortBy {α : Type} (le : α → α → Bool) : List α → List α
  | [] => []
  | x :: xs => insSorted le x (sortBy le xs)

/-- Python `<=` on an `(int, str)` key pair: lexicographic. -/
def lexLe (x y : Int × String) : Bool :=
  decide (x.1 < y.1) || (decide (x.1 = y.1) && decide (x.2 ≤ y.2))

/-- Modelled from the spec: `pyrddl.utils.rename_next_state_fluent` is not
among the provided sources; per the spec it de-primes a CPF name by
stripping the next-state marker convention, i.e. it removes the prime
marker character from the name. -/
def rename_next_state_fluent (name : String) : String :=
  String.mk (name.data.filter (fun c => decide (¬ c = primeChar)))

/-- `Domain.state_cpfs` (domain.py lines 176-186): the CPFs whose de-primed
name is a declared state fluent, sorted by the CPF's own name. -/
def Domain.state_cpfs (d : Domain) : List CPF :=
  sortBy (fun c1 c2 => decide (c1.name ≤ c2.name))
    (d.cpfs.filter
      (fun c => (dget (rename_next_state_fluent c.name) d.state_fluents).isSome))

/-- The `(level, name)` sort key of an intermediate CPF
(domain.py line 168). -/
def Domain.intermLevel (d : Domain) (n : String) : Int :=
  ((dget n d.intermediate_fluents).map PVariable.level).getD 0

/-- `Domain.intermediate_cpfs` (domain.py lines 163-169): the CPFs whose
name is a declared intermediate fluent, sorted by `(level, name)`. -/
def Domain.intermediate_cpfs (d : Domain) : List CPF :=
  sortBy (fun c1 c2 =>
      lexLe (d.intermLevel c1.name, c1.name) (d.intermLevel c2.name, c2.name))
    (d.cpfs.filter (fun c => (dget c.name d.intermediate_fluents).isSome))

/-- The sorted intermediate-fluent declarations used by
`Domain.interm_fluent_ordering` (domain.py lines 230-232). -/
def Domain.sortedIntermFluents (d : Domain) : List PVariable :=
  sortBy (fun p q => lexLe (p.level, p.name) (q.level, q.name))
    (d.intermediate_fluents.map Prod.snd)

/-- `Domain.interm_fluent_ordering` (domain.py lines 223-232). -/
def Domain.interm_fluent_ordering (d : Domain) : List String :=
  d.sortedIntermFluents.map PVariable.name

/-! ### build(): precondition partitioning and bound extraction -/

/-- The two tables built by `Domain._build_preconditions_table`. -/
structure PrecondTables where
  local_action_preconditions : List (String × List Expression)
  global_action_preconditions : List Expression
deriving DecidableEq

/-- `[action for action in scope if action in action_fluents]`
(domain.py line 75). -/
def actionScopeOf (afl : List (String × PVariable)) (s : List String) :
    List String :=
  s.filter (fun a => (dget a afl).isSome)

/-- The loop of `Domain._build_preconditions_table` (domain.py lines
68-81), with the two tables as accumulators; `none` models a propagated
exception from a `scope` computation. -/
def buildPreconds (afl : List (String × PVariable)) :
    List Expression → List (String × List Expression) → List Expression →
    Option PrecondTables
  | [], loc, glob => some ⟨loc, glob⟩
  | p :: rest, loc, glob =>
    match p.scope with
    | none => none
    | some s =>
      match actionScopeOf afl s with
      | [a] =>
        buildPreconds afl rest (dinsert a ((dget a loc).getD [] ++ [p]) loc) glob
      | _ => buildPreconds afl rest loc (glob ++ [p])

/-- `Domain._build_preconditions_table` (domain.py lines 68-81). -/
def Domain.build_preconditions_table (d : Domain) : Option PrecondTables :=
  buildPreconds d.action_fluents d.preconds [] []

/-- `Domain._extract_lower_bound` (domain.py lines 114-124).  The outer
`Option` models a propagated exception, the inner `Option` the
`Optional[Expression]` result; the returned bound is the raw payload
element `args[0]` / `args[1]`. -/
def extract_lower_bound (name : String) (expr : Expression) :
    Option (Option PyVal) :=
  match expr.etype with
  | none => none
  | some t =>
    match expr.args with
    | none => none
    | some a =>
      if t.2 = "<=" ∨ t.2 = "<" then
        match pyIdx a 1 with
        | none => none
        | some (PyVal.vexpr rnode) =>
          match (Expression.mk rnode).is_pvariable_expression with
          | none => none
          | some false => some none
          | some true =>
            match (Expression.mk rnode).name with
            | Except.error _ => none
            | Except.ok n =>
              if n = name then
                match pyIdx a 0 with
                | none => none
                | some l => some (some l)
              else some none
        | some _ => none
      else if t.2 = ">=" ∨ t.2 = ">" then
        match pyIdx a 0 with
        | none => none
        | some (PyVal.vexpr lnode) =>
          match (Expression.mk lnode).is_pvariable_expression with
          | none => none
          | some false => some none
          | some true =>
            match (Expression.mk lnode).name with
            | Except.error _ => none
            | Except.ok n =>
              if n = name then
                match pyIdx a 1 with
                | none => none
                | some r => some (some r)
              else some none
        | some _ => none
      else some none

/-- `Domain._extract_upper_bound` (domain.py lines 126-136). -/
def extract_upper_bound (name : String) (expr : Expression) :
    Option (Option PyVal) :=
  match expr.etype with
  | none => none
  | some t =>
    match expr.args with
    | none => none
    | some a =>
      if t.2 = "<=" ∨ t.2 = "<" then
        match pyIdx a 0 with
        | none => none
        | some (PyVal.vexpr lnode) =>
          match (Expression.mk lnode).is_pvariable_expression with
          | none => none
          | some false => some none
          | some true =>
            match (Expression.mk lnode).name with
            | Except.error _ => none
            | Except.ok n =>
              if n = name then
                match pyIdx a 1 with
                | none => none
                | some r => some (some r)
              else some none
        | some _ => none
      else if t.2 = ">=" ∨ t.2 = ">" then
        match pyIdx a 1 with
        | none => none
        | some (PyVal.vexpr rnode) =>
          match (Expression.mk rnode).is_pvariable_expression with
          | none => none
          | some false => some none
          | some true =>
            match (Expression.mk rnode).name with
            | Except.error _ => none
            | Except.ok n =>
              if n = name then
                match pyIdx a 0 with
                | none => none
                | some l => some (some l)
              else some none
        | some _ => none
      else some none

/-- The bounds-candidate selection of
`Domain._build_action_bound_constraints_table` (domain.py lines 91-101):
`precond.etype` and `precond.args` are evaluated first; a `forall`
aggregation whose payload position 1 is an `Expression` of relational
category yields that inner body, a directly relational precondition
yields itself, anything else yields no candidate. -/
def boundsCandidate (p : Expression) : Option (Option Expression) :=
  match p.etype with
  | none => none
  | some t =>
    match p.args with
    | none => none
    | some a =>
      if t = ("aggregation", "forall") then
        match pyIdx a 1 with
        | none => none
        | some (PyVal.vexpr inner) =>
          match (Expression.mk inner).etype with
          | none => none
          | some it =>
            if it.1 = "relational" then some (some (Expression.mk inner))
            else some none
        | some _ => none
      else if t.1 = "relational" then some (some p)
      else some none

/-- The two tables built by
`Domain._build_action_bound_constraints_table`. -/
structure BoundTables where
  action_lower_bound_constraints : List (String × PyVal)
  action_upper_bound_constraints : List (String × PyVal)
deriving DecidableEq

/-- The per-precondition body of the inner loop of
`Domain._build_action_bound_constraints_table` (domain.py lines 90-111):
try the lower bound first and the upper bound only when the lower-bound
test failed. -/
def boundStep (name : String) (t : BoundTables) (p : Expression) :
    Option BoundTables :=
  match boundsCandidate p with
  | none => none
  | some none => some t
  | some (some be) =>
    match extract_lower_bound name be with
    | none => none
    | some (some b) =>
      some ⟨dinsert name b t.action_lower_bound_constraints,
            t.action_upper_bound_constraints⟩
    | some none =>
      match extract_upper_bound name be with
      | none => none
      | some (some b) =>
        some ⟨t.action_lower_bound_constraints,
              dinsert name b t.action_upper_bound_constraints⟩
      | some none => some t

/-- The inner loop over one action's local preconditions. -/
def boundSteps (name : String) : List Expression → BoundTables →
    Option BoundTables
  | [], t => some t
  | p :: ps, t =>
    match boundStep name t p with
    | none => none
    | some t' => boundSteps name ps t'

/-- The outer loop of `Domain._build_action_bound_constraints_table`
over the `(action, precondition list)` items of the local table. -/
def buildBounds : List (String × List Expression) → BoundTables →
    Option BoundTables
  | [], t => some t
  | (name, ps) :: rest, t =>
    match boundSteps name ps t with
    | none => none
    | some t' => buildBounds rest t'

/-- `Domain._build_action_bound_constraints_table` (domain.py lines
83-111), given the already-built local table. -/
def Domain.build_action_bound_constraints_table
    (localTbl : List (String × List Expression)) : Option BoundTables :=
  buildBounds localTbl ⟨[], []⟩

/-- `Domain.build` (domain.py lines 64-66). -/
def Domain.build (d : Domain) : Option (PrecondTables × BoundTables) :=
  match d.build_preconditions_table with
  | none => none
  | some pt =>
    match Domain.build_action_bound_constraints_table
        pt.local_action_preconditions with
    | none => none
    | some bt => some (pt, bt)

/-! ### Derived notions used in theorem statements -/

/-- The classification of one precondition by
`_build_preconditions_table`: `some a` when its scope touches exactly the
one declared action fluent `a`, `none` otherwise (including a scope
failure, which aborts the whole build). -/
def localTag (afl : List (String × PVariable)) (p : Expression) :
    Option String :=
  match p.scope with
  | none => none
  | some s =>
    match actionScopeOf afl s with
    | [a] => some a
    | _ => none

/-- The fixed tag vocabulary of `etype` / `args`. -/
def knownTags : List String :=
  ["number", "boolean", "pvar_expr", "penum_expr", "randomvar",
   "+", "-", "*", "/", "^", "&", "|", "~", "=>", "<=>",
   ">=", "<=", "<", ">", "==", "~=",
   "func", "sum", "prod", "avg", "max", "min", "forall", "exists", "if"]

/-- Whether a leading position holds a recognized tag. -/
def isKnownTag : PyVal → Bool
  | PyVal.vstr s => knownTags.contains s
  | _ => false

/-! ### Concrete nodes and domains used by witnesses -/

/-- A raw `pvar_expr` node `('pvar_expr', (functor, params))`. -/
def pvarNodeRaw (f : String) (params : PyVal) : PyVal :=
  tup [PyVal.vstr "pvar_expr", tup [PyVal.vstr f, params]]

/-- A `('number', n)` node. -/
def numNode (n : Int) : PyVal := tup [PyVal.vstr "number", PyVal.vint n]

/-- A relational node `(op, (lhs, rhs))`. -/
def relExpr (op : String) (l r : PyVal) : Expression :=
  Expression.mk (tup [PyVal.vstr op, tup [l, r]])

/-- A boolean conjunction node. -/
def andExpr (l r : PyVal) : Expression :=
  Expression.mk (tup [PyVal.vstr "&", tup [l, r]])

/-- A `('forall', (typed var, body))` node. -/
def forallNode (tv body : PyVal) : Expression :=
  Expression.mk (tup [PyVal.vstr "forall", tup [tv, PyVal.vexpr body]])

/-- A hand-built tree with the pvariable references `a/0` and `b/2`
nested inside arithmetic / boolean / aggregation wrappers. -/
def roundtripExpr : Expression :=
  Expression.mk (tup [PyVal.vstr "+", tup
    [PyVal.vexpr (pvarNodeRaw "a" PyVal.vnone),
     PyVal.vexpr (tup [PyVal.vstr "forall", tup
       [PyVal.vstr "?x",
        PyVal.vexpr (tup [PyVal.vstr "&", tup
          [PyVal.vexpr (pvarNodeRaw "b" (tup [PyVal.vstr "?x", PyVal.vstr "?y"])),
           PyVal.vexpr (numNode 3)]])]])]])

def precondEx : Expression :=
  relExpr ">=" (PyVal.vexpr (pvarNodeRaw "a" PyVal.vnone))
    (PyVal.vexpr (numNode 0))

def dEx : Domain :=
  { name := "d", requirements := [],
    pvariables := [⟨"a/0", Role.actionFluent, 0⟩, ⟨"s/0", Role.stateFluent, 0⟩],
    cpfs := [], reward := Expression.mk PyVal.vnil,
    preconds := [precondEx], invariants := [], constraints := [] }

def ptEx : PrecondTables := ⟨[("a/0", [precondEx])], []⟩

def btEx : BoundTables := ⟨[("a/0", PyVal.vexpr (numNode 0))], []⟩

def P1 : Expression := precondEx

def P2 : Expression :=
  andExpr (PyVal.vexpr (pvarNodeRaw "a" PyVal.vnone))
    (PyVal.vexpr (pvarNodeRaw "b" PyVal.vnone))

def P3 : Expression := Expression.mk (tup [PyVal.vstr "number", PyVal.vint 1])

def dEx5 : Domain :=
  { name := "d5", requirements := [],
    pvariables := [⟨"a/0", Role.actionFluent, 0⟩, ⟨"b/0", Role.actionFluent, 0⟩,
                   ⟨"c/0", Role.actionFluent, 0⟩],
    cpfs := [], reward := Expression.mk PyVal.vnil,
    preconds := [P1, P2, P3], invariants := [], constraints := [] }

def ptEx5 : PrecondTables := ⟨[("a/0", [P1])], [P2, P3]⟩

/-- A precondition whose lower-bound test fails and whose upper-bound
test succeeds (`a <= 5`). -/
def upperEx : Expression :=
  relExpr "<=" (PyVal.vexpr (pvarNodeRaw "a" PyVal.vnone))
    (PyVal.vexpr (numNode 5))

/-! ## Helper lemmas -/

theorem dget_dinsert_self {α : Type} (k : String) (v : α) (l : List (String × α)) :
    dget k (dinsert k v l) = some v := by
  induction l with
  | nil => simp [dinsert, dget]
  | cons hd tl ih =>
    obtain ⟨k', v'⟩ := hd
    by_cases h : k' = k
    · simp [dinsert, dget, h]
    · simp [dinsert, dget, h, ih]

theorem dget_dinsert_ne {α : Type} {k k' : String} (hne : ¬ k' = k) (v : α)
    (l : List (String × α)) : dget k' (dinsert k v l) = dget k' l := by
  have hne' : ¬ k = k' := fun h => hne h.symm
  induction l with
  | nil => simp [dinsert, dget, hne']
  | cons hd tl ih =>
    obtain ⟨k0, v0⟩ := hd
    by_cases h : k0 = k
    · subst h
      simp [dinsert, dget, hne']
    · simp only [dinsert, if_neg h]
      by_cases h2 : k0 = k'
      · simp [dget, h2]
      · simp [dget, h2, ih]

theorem mem_dkeys_dinsert {α : Type} (a k : String) (v : α)
    (l : List (String × α)) :
    a ∈ dkeys (dinsert k v l) ↔ a = k ∨ a ∈ dkeys l := by
  induction l with
  | nil => simp [dinsert, dkeys]
  | cons hd tl ih =>
    obtain ⟨k0, v0⟩ := hd
    by_cases h : k0 = k
    · subst h
      simp [dinsert, dkeys]
    · simp only [dinsert, if_neg h, dkeys, List.map_cons, List.mem_cons]
      rw [show (List.map Prod.fst (dinsert k v tl)) = dkeys (dinsert k v tl) from rfl]
      rw [ih]
      simp [dkeys]
      tauto

theorem nodup_dkeys_dinsert {α : Type} (k : String) (v : α)
    {l : List (String × α)} (h : (dkeys l).Nodup) :
    (dkeys (dinsert k v l)).Nodup := by
  induction l with
  | nil => simp [dinsert, dkeys]
  | cons hd tl ih =>
    obtain ⟨k0, v0⟩ := hd
    simp only [dkeys, List.map_cons, List.nodup_cons] at h
    by_cases hk : k0 = k
    · subst hk
      simpa [dinsert, dkeys, List.nodup_cons] using h
    · simp only [dinsert, if_neg hk, dkeys, List.map_cons, List.nodup_cons]
      constructor
      · rw [show (List.map Prod.fst (dinsert k v tl)) = dkeys (dinsert k v tl) from rfl]
        rw [mem_dkeys_dinsert]
        push_neg
        exact ⟨hk, h.1⟩
      · exact ih h.2

theorem dget_isSome_iff_mem_dkeys {α : Type} (k : String)
    (l : List (String × α)) : (dget k l).isSome ↔ k ∈ dkeys l := by
  induction l with
  | nil => simp [dget, dkeys]
  | cons hd tl ih =>
    obtain ⟨k0, v0⟩ := hd
    by_cases h : k0 = k
    · simp [dget, dkeys, h]
    · have h' : ¬ k = k0 := fun hh => h hh.symm
      simp [dget, dkeys, h, ih, h']

theorem mem_sunion (x : String) (s t : List String) :
    x ∈ sunion s t ↔ x ∈ s ∨ x ∈ t := by
  simp only [sunion, List.mem_append, List.mem_filter, decide_eq_true_eq]
  tauto

theorem pyLen_tup (ps : List PyVal) : pyLen (tup ps) = some ps.length := by
  induction ps with
  | nil => rfl
  | cons x xs ih => simp [tup, pyLen] at ih ⊢; simp [ih]

theorem insSorted_perm {α : Type} (le : α → α → Bool) (x : α) (l : List α) :
    List.Perm (insSorted le x l) (x :: l) := by
  induction l with
  | nil => exact List.Perm.refl _
  | cons y ys ih =>
    simp only [insSorted]
    by_cases h : le x y = true
    · rw [if_pos h]
    · rw [if_neg h]
      exact List.Perm.trans (List.Perm.cons y ih) (List.Perm.swap x y ys)

theorem sortBy_perm {α : Type} (le : α → α → Bool) (l : List α) :
    List.Perm (sortBy le l) l := by
  induction l with
  | nil => exact List.Perm.refl _
  | cons x xs ih =>
    exact List.Perm.trans (insSorted_perm le x (sortBy le xs)) (List.Perm.cons x ih)

theorem pairwise_insSorted {α : Type} (le : α → α → Bool)
    (htot : ∀ a b, le a b = true ∨ le b a = true)
    (htr : ∀ a b c, le a b = true → le b c = true → le a c = true)
    (x : α) (l : List α) (h : List.Pairwise (fun a b => le a b = true) l) :
    List.Pairwise (fun a b => le a b = true) (insSorted le x l) := by
  induction l with
  | nil => simp [insSorted]
  | cons y ys ih =>
    rcases h with _ | ⟨hy, hys⟩
    simp only [insSorted]
    by_cases hxy : le x y = true
    · rw [if_pos hxy]
      refine List.Pairwise.cons ?_ (List.Pairwise.cons hy hys)
      intro z hz
      rcases List.mem_cons.mp hz with rfl | hz
      · exact hxy
      · exact htr x y z hxy (hy z hz)
    · rw [if_neg hxy]
      refine List.Pairwise.cons ?_ (ih hys)
      intro z hz
      have hz' := (insSorted_perm le x ys).mem_iff.mp hz
      rcases List.mem_cons.mp hz' with hzx | hz'
      · rcases htot y z with hyz | hzy
        · exact hyz
        · rw [hzx] at hzy
          exact absurd hzy hxy
      · exact hy z hz'

theorem pairwise_sortBy {α : Type} (le : α → α → Bool)
    (htot : ∀ a b, le a b = true ∨ le b a = true)
    (htr : ∀ a b c, le a b = true → le b c = true → le a c = true)
    (l : List α) :
    List.Pairwise (fun a b => le a b = true) (sortBy le l) := by
  induction l with
  | nil => simp [sortBy]
  | cons x xs ih => exact pairwise_insSorted le htot htr x (sortBy le xs) ih

theorem lexLe_eq_true_iff (x y : Int × String) :
    lexLe x y = true ↔ (x.1 < y.1 ∨ (x.1 = y.1 ∧ x.2 ≤ y.2)) := by
  simp [lexLe]

theorem lexLe_total (x y : Int × String) :
    lexLe x y = true ∨ lexLe y x = true := by
  rw [lexLe_eq_true_iff, lexLe_eq_true_iff]
  rcases lt_trichotomy x.1 y.1 with h | h | h
  · exact Or.inl (Or.inl h)
  · rcases le_total x.2 y.2 with h2 | h2
    · exact Or.inl (Or.inr ⟨h, h2⟩)
    · exact Or.inr (Or.inr ⟨h.symm, h2⟩)
  · exact Or.inr (Or.inl h)

theorem lexLe_trans (x y z : Int × String)
    (hxy : lexLe x y = true) (hyz : lexLe y z = true) : lexLe x z = true := by
  rw [lexLe_eq_true_iff] at hxy hyz ⊢
  rcases hxy with h1 | ⟨h1, h1b⟩ <;> rcases hyz with h2 | ⟨h2, h2b⟩
  · exact Or.inl (h1.trans h2)
  · exact Or.inl (h2 ▸ h1)
  · exact Or.inl (h1 ▸ h2)
  · exact Or.inr ⟨h1.trans h2, le_trans h1b h2b⟩

/-! ## The claims -/

/-- C4: `scope` collects the `functor/arity` identifiers of pvariable
references throughout the subtree: set union distributes over membership;
the walk recurses into nested `Expression` objects and into raw
tuples/lists, combining their scopes with the scope of the remaining
positions; when a position holds the literal tag `pvar_expr`, the next
position is read as the `(functor, params)` pair, its name is added
(arity 0 when `params` is null, the parameter count otherwise), and the
node's remaining positions are not scanned — the result is independent of
everything after the pair, so a later sibling `pvar_expr` at the same
positional level is not recorded; and the round-trip example containing
exactly `a/0` and `b/2` under nested wrappers yields exactly that set. -/
theorem scope_recursion_and_stop :
    (∀ (x : String) (s t : List String), x ∈ sunion s t ↔ x ∈ s ∨ x ∈ t) ∧
    (∀ (node rest : PyVal) (s t : List String),
      getScope node = some s → getScope rest = some t →
      getScope (PyVal.vcons (PyVal.vexpr node) rest) = some (sunion s t)) ∧
    (∀ (h tl rest : PyVal) (s t : List String),
      getScope (PyVal.vcons h tl) = some s → getScope rest = some t →
      getScope (PyVal.vcons (PyVal.vcons h tl) rest) = some (sunion s t)) ∧
    (∀ (f : String) (rest : PyVal),
      getScope (PyVal.vcons (PyVal.vstr "pvar_expr")
        (PyVal.vcons (tup [PyVal.vstr f, PyVal.vnone]) rest)) =
        some [f ++ "/0"]) ∧
    (∀ (f : String) (ps : List PyVal) (rest : PyVal),
      getScope (PyVal.vcons (PyVal.vstr "pvar_expr")
        (PyVal.vcons (tup [PyVal.vstr f, tup ps]) rest)) =
        some [f ++ "/" ++ toString ps.length]) ∧
    Expression.scope roundtripExpr = some ["a/0", "b/2"] ∧
    ["a/0", "b/2"].toFinset = ({"a/0", "b/2"} : Finset String) := by
  refine ⟨mem_sunion, ?_, ?_, ?_, ?_, rfl, by decide⟩
  · intro node rest s t h1 h2
    simp [getScope, h1, h2]
  · intro h tl rest s t h1 h2
    simp [getScope, h1, h2]
  · intro f rest
    simp [getScope, tup]
  · intro f ps rest
    cases ps with
    | nil => simp [getScope, tup, pyLen]
    | cons x xs =>
      have hx := pyLen_tup xs
      simp only [tup] at hx
      simp [getScope, tup, pyLen, hx]

theorem scope_recursion_and_stop_witness :
    (getScope (pvarNodeRaw "a" PyVal.vnone) = some ["a/0"] ∧
     getScope PyVal.vnil = some []) ∧
    getScope (PyVal.vcons (PyVal.vexpr (pvarNodeRaw "a" PyVal.vnone))
      PyVal.vnil) = some (sunion ["a/0"] []) :=
  ⟨⟨rfl, rfl⟩,
   scope_recursion_and_stop.2.1 (pvarNodeRaw "a" PyVal.vnone) PyVal.vnil
     ["a/0"] [] rfl rfl⟩

/-- C6: `name` fails with the `ValueError`-style domain error exactly when
the expression is not a pvariable expression, and on a pvariable
expression returns `functor/arity` with arity the parameter-list length
(0 when the parameter list is null); `value` fails with the domain error
exactly when the expression is not a constant expression, and on a
constant expression returns the wrapped literal. -/
theorem name_value_contract :
    (∀ e : Expression,
      Expression.name e = Except.error Err.value ↔
        e.is_pvariable_expression = some false) ∧
    (∀ e : Expression,
      Expression.value e = Except.error Err.value ↔
        e.is_constant_expression = some false) ∧
    (∀ f : String,
      Expression.name (Expression.mk (pvarNodeRaw f PyVal.vnone)) =
        Except.ok (f ++ "/0")) ∧
    (∀ (f : String) (ps : List PyVal),
      Expression.name (Expression.mk (pvarNodeRaw f (tup ps))) =
        Except.ok (f ++ "/" ++ toString ps.length)) ∧
    (∀ v : PyVal,
      Expression.value (Expression.mk (tup [PyVal.vstr "number", v])) =
        Except.ok v) ∧
    (∀ v : PyVal,
      Expression.value (Expression.mk (tup [PyVal.vstr "boolean", v])) =
        Except.ok v) := by
  refine ⟨?_, ?_, ?_, ?_, ?_, ?_⟩
  · intro e
    cases hp : e.is_pvariable_expression with
    | none => simp [Expression.name, hp]
    | some b =>
      cases b with
      | false => simp [Expression.name, hp]
      | true =>
        cases ha : e.args with
        | none => simp [Expression.name, hp, ha]
        | some a =>
          cases hn : pvar_to_name a with
          | none => simp [Expression.name, hp, ha, hn]
          | some s => simp [Expression.name, hp, ha, hn]
  · intro e
    cases hp : e.is_constant_expression with
    | none => simp [Expression.value, hp]
    | some b =>
      cases b with
      | false => simp [Expression.value, hp]
      | true =>
        cases ha : e.args with
        | none => simp [Expression.value, hp, ha]
        | some a => simp [Expression.value, hp, ha]
  · intro f
    simp [Expression.name, Expression.is_pvariable_expression,
      Expression.etype, Expression.args, pvarNodeRaw, tup, pyIdx,
      pvar_to_name]
  · intro f ps
    cases ps with
    | nil =>
      simp [Expression.name, Expression.is_pvariable_expression,
        Expression.etype, Expression.args, pvarNodeRaw, tup, pyIdx,
        pvar_to_name, pyLen]
    | cons x xs =>
      have hx := pyLen_tup xs
      simp only [tup] at hx
      simp [Expression.name, Expression.is_pvariable_expression,
        Expression.etype, Expression.args, pvarNodeRaw, tup, pyIdx,
        pvar_to_name, pyLen, hx]
  · intro v
    simp [Expression.value, Expression.is_constant_expression,
      Expression.etype, Expression.args, tup, pyIdx]
  · intro v
    simp [Expression.value, Expression.is_constant_expression,
      Expression.etype, Expression.args, tup, pyIdx]

/-- C7 (counterexample): on the unrecognized tag `foo`, `etype` does not
return the pair `(UNKNOWN, UNKNOWN)` — the code's fallback literal is the
misspelled `UNKOWN`. -/
theorem etype_unknown_spelling_counterexample :
    ¬ (Expression.etype (Expression.mk (PyVal.vcons (PyVal.vstr "foo")
        PyVal.vnil)) = some ("UNKNOWN", "UNKNOWN")) := by
  decide

/-- C7 (amended): for every node whose leading position is not a
recognized tag — whatever the rest of the node holds — `etype` returns the
pair `(UNKOWN, UNKOWN)` (the code's literal spelling of UNKNOWN) and
`args` returns an empty list; neither raises an error on any such node. -/
theorem etype_unknown_fallback (h rest : PyVal)
    (hk : isKnownTag h = false) :
    Expression.etype (Expression.mk (PyVal.vcons h rest)) =
      some ("UNKOWN", "UNKOWN") ∧
    Expression.args (Expression.mk (PyVal.vcons h rest)) =
      some PyVal.vnil := by
  cases h with
  | vstr s =>
    simp only [isKnownTag, knownTags, List.contains, List.elem_eq_mem,
      List.mem_cons, List.not_mem_nil, or_false, decide_eq_false_iff_not,
      not_or] at hk
    obtain ⟨h1, h2, h3, h4, h5, h6, h7, h8, h9, h10, h11, h12, h13, h14,
      h15, h16, h17, h18, h19, h20, h21, h22, h23, h24, h25, h26, h27,
      h28, h29, h30⟩ := hk
    constructor
    · simp [Expression.etype, pyIdx, h1, h2, h3, h4, h5, h6, h7, h8, h9,
        h10, h11, h12, h13, h14, h15, h16, h17, h18, h19, h20, h21, h22,
        h23, h24, h25, h26, h27, h28, h29, h30]
    · simp [Expression.args, pyIdx, h1, h2, h3, h4, h5, h6, h7, h8, h9,
        h10, h11, h12, h13, h14, h15, h16, h17, h18, h19, h20, h21, h22,
        h23, h24, h25, h26, h27, h28, h29, h30]
  | vint n => constructor <;> simp [Expression.etype, Expression.args, pyIdx]
  | vbool b => constructor <;> simp [Expression.etype, Expression.args, pyIdx]
  | vnone => constructor <;> simp [Expression.etype, Expression.args, pyIdx]
  | vnil => constructor <;> simp [Expression.etype, Expression.args, pyIdx]
  | vcons a b => constructor <;> simp [Expression.etype, Expression.args, pyIdx]
  | vexpr n => constructor <;> simp [Expression.etype, Expression.args, pyIdx]

theorem etype_unknown_fallback_witness :
    isKnownTag (PyVal.vstr "foo") = false ∧
    (Expression.etype (Expression.mk (PyVal.vcons (PyVal.vstr "foo")
        PyVal.vnil)) = some ("UNKOWN", "UNKOWN") ∧
     Expression.args (Expression.mk (PyVal.vcons (PyVal.vstr "foo")
        PyVal.vnil)) = some PyVal.vnil) :=
  ⟨rfl, etype_unknown_fallback (PyVal.vstr "foo") PyVal.vnil rfl⟩

/-- C1: for a relational bounds candidate with two operands: with operator
`<=` or `<` and the right operand a pvariable expression naming the
action, the left operand is the extracted lower bound, and with the left
operand naming the action the right operand is the extracted upper bound;
with operator `>=` or `>` and the left operand naming the action, the
right operand is the lower bound, and with the right operand naming the
action the left operand is the upper bound; the operators `==` and `~=`
yield no bound at all. -/
theorem extract_bound_patterns (n : String) (rnode l : PyVal)
    (hpv : (Expression.mk rnode).is_pvariable_expression = some true)
    (hname : (Expression.mk rnode).name = Except.ok n) :
    (∀ op : String, op = "<=" ∨ op = "<" →
      extract_lower_bound n (relExpr op l (PyVal.vexpr rnode)) =
        some (some l) ∧
      extract_upper_bound n (relExpr op (PyVal.vexpr rnode) l) =
        some (some l)) ∧
    (∀ op : String, op = ">=" ∨ op = ">" →
      extract_lower_bound n (relExpr op (PyVal.vexpr rnode) l) =
        some (some l) ∧
      extract_upper_bound n (relExpr op l (PyVal.vexpr rnode)) =
        some (some l)) ∧
    (∀ (op : String) (l2 r2 : PyVal), op = "==" ∨ op = "~=" →
      extract_lower_bound n (relExpr op l2 r2) = some none ∧
      extract_upper_bound n (relExpr op l2 r2) = some none) := by
  refine ⟨?_, ?_, ?_⟩
  · intro op hop
    rcases hop with rfl | rfl <;>
      constructor <;>
      simp [extract_lower_bound, extract_upper_bound, relExpr, tup,
        Expression.etype, Expression.args, pyIdx, hpv, hname]
  · intro op hop
    rcases hop with rfl | rfl <;>
      constructor <;>
      simp [extract_lower_bound, extract_upper_bound, relExpr, tup,
        Expression.etype, Expression.args, pyIdx, hpv, hname]
  · intro op l2 r2 hop
    rcases hop with rfl | rfl <;>
      constructor <;>
      simp [extract_lower_bound, extract_upper_bound, relExpr, tup,
        Expression.etype, Expression.args, pyIdx]

theorem extract_bound_patterns_witness :
    ((Expression.mk (pvarNodeRaw "a" PyVal.vnone)).is_pvariable_expression =
       some true ∧
     (Expression.mk (pvarNodeRaw "a" PyVal.vnone)).name = Except.ok "a/0") ∧
    extract_lower_bound "a/0"
      (relExpr "<=" (PyVal.vexpr (numNode 0))
        (PyVal.vexpr (pvarNodeRaw "a" PyVal.vnone))) =
      some (some (PyVal.vexpr (numNode 0))) :=
  ⟨⟨rfl, rfl⟩,
   ((extract_bound_patterns "a/0" (pvarNodeRaw "a" PyVal.vnone)
      (PyVal.vexpr (numNode 0)) rfl rfl).1 "<=" (Or.inl rfl)).1⟩

/-- C2: the bounds candidate of a local precondition is the inner
relational body when the precondition is a `forall` aggregation whose body
is relational; the precondition itself when it is directly relational; and
for every precondition of any other shape (including a `forall` with a
non-relational body) there is no candidate and the precondition leaves
both bound tables unchanged. -/
theorem bounds_candidate_selection :
    (∀ (tv body : PyVal) (it : String × String),
      (Expression.mk body).etype = some it → it.1 = "relational" →
      boundsCandidate (forallNode tv body) =
        some (some (Expression.mk body))) ∧
    (∀ (tv body : PyVal) (it : String × String),
      (Expression.mk body).etype = some it → ¬ it.1 = "relational" →
      boundsCandidate (forallNode tv body) = some none ∧
      ∀ (n : String) (tb : BoundTables),
        boundStep n tb (forallNode tv body) = some tb) ∧
    (∀ (p : Expression) (t : String × String) (a : PyVal),
      p.etype = some t → p.args = some a → t.1 = "relational" →
      boundsCandidate p = some (some p)) ∧
    (∀ (p : Expression) (t : String × String) (a : PyVal),
      p.etype = some t → p.args = some a →
      ¬ t = ("aggregation", "forall") → ¬ t.1 = "relational" →
      boundsCandidate p = some none ∧
      ∀ (n : String) (tb : BoundTables), boundStep n tb p = some tb) := by
  refine ⟨?_, ?_, ?_, ?_⟩
  · intro tv body it het hit
    have h1 : (forallNode tv body).etype = some ("aggregation", "forall") := by
      simp [forallNode, tup, Expression.etype, pyIdx]
    have h2 : (forallNode tv body).args =
        some (tup [tv, PyVal.vexpr body]) := by
      simp [forallNode, tup, Expression.args, pyIdx]
    simp [boundsCandidate, h1, h2, tup, pyIdx, het, hit]
  · intro tv body it het hit
    have h1 : (forallNode tv body).etype = some ("aggregation", "forall") := by
      simp [forallNode, tup, Expression.etype, pyIdx]
    have h2 : (forallNode tv body).args =
        some (tup [tv, PyVal.vexpr body]) := by
      simp [forallNode, tup, Expression.args, pyIdx]
    have hc : boundsCandidate (forallNode tv body) = some none := by
      simp [boundsCandidate, h1, h2, tup, pyIdx, het, hit]
    exact ⟨hc, fun n tb => by simp [boundStep, hc]⟩
  · intro p t a hp ha ht1
    obtain ⟨t1, t2⟩ := t
    simp only at ht1
    subst ht1
    simp [boundsCandidate, hp, ha]
  · intro p t a hp ha htf htr
    have hc : boundsCandidate p = some none := by
      simp [boundsCandidate, hp, ha, htf, htr]
    exact ⟨hc, fun n tb => by simp [boundStep, hc]⟩

theorem bounds_candidate_selection_witness :
    ((Expression.mk (relExpr "<=" (PyVal.vexpr (numNode 0))
        (PyVal.vexpr (pvarNodeRaw "a" PyVal.vnone))).node).etype =
      some ("relational", "<=") ∧
     ("relational", "<=").1 = "relational") ∧
    boundsCandidate (forallNode (PyVal.vstr "?x")
      (relExpr "<=" (PyVal.vexpr (numNode 0))
        (PyVal.vexpr (pvarNodeRaw "a" PyVal.vnone))).node) =
      some (some (Expression.mk (relExpr "<=" (PyVal.vexpr (numNode 0))
        (PyVal.vexpr (pvarNodeRaw "a" PyVal.vnone))).node)) :=
  ⟨⟨rfl, rfl⟩,
   bounds_candidate_selection.1 (PyVal.vstr "?x")
     (relExpr "<=" (PyVal.vexpr (numNode 0))
       (PyVal.vexpr (pvarNodeRaw "a" PyVal.vnone))).node
     ("relational", "<=") rfl rfl⟩

/-- C8: a CPF belongs to `state_cpfs` exactly when its de-primed name is a
declared state fluent (CPFs with undeclared de-primed names are excluded),
and the result is sorted alphabetically by the CPF's own primed name. -/
theorem state_cpfs_spec (d : Domain) :
    List.Perm (Domain.state_cpfs d)
      (d.cpfs.filter (fun c =>
        (dget (rename_next_state_fluent c.name) d.state_fluents).isSome)) ∧
    (∀ c : CPF, c ∈ Domain.state_cpfs d ↔
      (c ∈ d.cpfs ∧
       (dget (rename_next_state_fluent c.name) d.state_fluents).isSome)) ∧
    List.Pairwise (fun c1 c2 : CPF => c1.name ≤ c2.name)
      (Domain.state_cpfs d) := by
  have hperm :
      List.Perm (Domain.state_cpfs d)
        (d.cpfs.filter (fun c =>
          (dget (rename_next_state_fluent c.name) d.state_fluents).isSome)) :=
    sortBy_perm _ _
  refine ⟨hperm, ?_, ?_⟩
  · intro c
    rw [hperm.mem_iff]
    simp [List.mem_filter]
  · have htot : ∀ c1 c2 : CPF,
        decide (c1.name ≤ c2.name) = true ∨
        decide (c2.name ≤ c1.name) = true := by
      intro c1 c2
      rcases le_total c1.name c2.name with h | h
      · exact Or.inl (by simpa using h)
      · exact Or.inr (by simpa using h)
    have htr : ∀ c1 c2 c3 : CPF,
        decide (c1.name ≤ c2.name) = true →
        decide (c2.name ≤ c3.name) = true →
        decide (c1.name ≤ c3.name) = true := by
      intro c1 c2 c3 h1 h2
      simp only [decide_eq_true_eq] at h1 h2 ⊢
      exact le_trans h1 h2
    have hpw := pairwise_sortBy
      (fun c1 c2 : CPF => decide (c1.name ≤ c2.name)) htot htr
      (d.cpfs.filter (fun c =>
        (dget (rename_next_state_fluent c.name) d.state_fluents).isSome))
    exact hpw.imp (fun h => by simpa using h)

/-- C9: `intermediate_cpfs` contains exactly the CPFs whose name is a
declared intermediate fluent, ordered ascending by the pair
`(declared level, name)`; `interm_fluent_ordering` lists the intermediate
fluents sorted by level ascending with ties on level broken alphabetically
by name. -/
theorem intermediate_ordering_spec (d : Domain) :
    List.Perm (Domain.intermediate_cpfs d)
      (d.cpfs.filter (fun c => (dget c.name d.intermediate_fluents).isSome)) ∧
    (∀ c : CPF, c ∈ Domain.intermediate_cpfs d ↔
      (c ∈ d.cpfs ∧ (dget c.name d.intermediate_fluents).isSome)) ∧
    List.Pairwise (fun c1 c2 : CPF =>
      d.intermLevel c1.name < d.intermLevel c2.name ∨
      (d.intermLevel c1.name = d.intermLevel c2.name ∧ c1.name ≤ c2.name))
      (Domain.intermediate_cpfs d) ∧
    Domain.interm_fluent_ordering d =
      (Domain.sortedIntermFluents d).map PVariable.name ∧
    List.Perm (Domain.sortedIntermFluents d)
      (d.intermediate_fluents.map Prod.snd) ∧
    List.Pairwise (fun p q : PVariable =>
      p.level < q.level ∨ (p.level = q.level ∧ p.name ≤ q.name))
      (Domain.sortedIntermFluents d) := by
  have hperm :
      List.Perm (Domain.intermediate_cpfs d)
        (d.cpfs.filter (fun c =>
          (dget c.name d.intermediate_fluents).isSome)) :=
    sortBy_perm _ _
  refine ⟨hperm, ?_, ?_, rfl, sortBy_perm _ _, ?_⟩
  · intro c
    rw [hperm.mem_iff]
    simp [List.mem_filter]
  · have hpw := pairwise_sortBy
      (fun c1 c2 : CPF =>
        lexLe (d.intermLevel c1.name, c1.name) (d.intermLevel c2.name, c2.name))
      (fun c1 c2 => lexLe_total _ _)
      (fun c1 c2 c3 h1 h2 => lexLe_trans _ _ _ h1 h2)
      (d.cpfs.filter (fun c => (dget c.name d.intermediate_fluents).isSome))
    exact hpw.imp (fun h => by simpa [lexLe_eq_true_iff] using h)
  · have hpw := pairwise_sortBy
      (fun p q : PVariable => lexLe (p.level, p.name) (q.level, q.name))
      (fun p q => lexLe_total _ _)
      (fun p q r h1 h2 => lexLe_trans _ _ _ h1 h2)
      (d.intermediate_fluents.map Prod.snd)
    exact hpw.imp (fun h => by simpa [lexLe_eq_true_iff] using h)

theorem boundStep_shape (n : String) (t : BoundTables) (p : Expression)
    (t' : BoundTables) (h : boundStep n t p = some t') :
    t' = t ∨
    (∃ b, t' = ⟨dinsert n b t.action_lower_bound_constraints,
                t.action_upper_bound_constraints⟩) ∨
    (∃ b, t' = ⟨t.action_lower_bound_constraints,
                dinsert n b t.action_upper_bound_constraints⟩) := by
  unfold boundStep at h
  split at h
  · cases h
  · exact Or.inl (Option.some.inj h).symm
  · split at h
    · cases h
    · exact Or.inr (Or.inl ⟨_, (Option.some.inj h).symm⟩)
    · split at h
      · cases h
      · exact Or.inr (Or.inr ⟨_, (Option.some.inj h).symm⟩)
      · exact Or.inl (Option.some.inj h).symm

theorem boundStep_nodup {n : String} {t : BoundTables} {p : Expression}
    {t' : BoundTables} (h : boundStep n t p = some t')
    (h1 : (dkeys t.action_lower_bound_constraints).Nodup)
    (h2 : (dkeys t.action_upper_bound_constraints).Nodup) :
    (dkeys t'.action_lower_bound_constraints).Nodup ∧
    (dkeys t'.action_upper_bound_constraints).Nodup := by
  rcases boundStep_shape n t p t' h with rfl | ⟨b, rfl⟩ | ⟨b, rfl⟩
  · exact ⟨h1, h2⟩
  · exact ⟨nodup_dkeys_dinsert n b h1, h2⟩
  · exact ⟨h1, nodup_dkeys_dinsert n b h2⟩

theorem boundStep_keys {n : String} {t : BoundTables} {p : Expression}
    {t' : BoundTables} (h : boundStep n t p = some t') :
    (∀ k, k ∈ dkeys t'.action_lower_bound_constraints →
      k = n ∨ k ∈ dkeys t.action_lower_bound_constraints) ∧
    (∀ k, k ∈ dkeys t'.action_upper_bound_constraints →
      k = n ∨ k ∈ dkeys t.action_upper_bound_constraints) := by
  rcases boundStep_shape n t p t' h with rfl | ⟨b, rfl⟩ | ⟨b, rfl⟩
  · exact ⟨fun k hk => Or.inr hk, fun k hk => Or.inr hk⟩
  · exact ⟨fun k hk => (mem_dkeys_dinsert k n b _).mp hk,
           fun k hk => Or.inr hk⟩
  · exact ⟨fun k hk => Or.inr hk,
           fun k hk => (mem_dkeys_dinsert k n b _).mp hk⟩

theorem boundSteps_nodup {n : String} (ps : List Expression) :
    ∀ t t', boundSteps n ps t = some t' →
    (dkeys t.action_lower_bound_constraints).Nodup →
    (dkeys t.action_upper_bound_constraints).Nodup →
    (dkeys t'.action_lower_bound_constraints).Nodup ∧
    (dkeys t'.action_upper_bound_constraints).Nodup := by
  induction ps with
  | nil =>
    intro t t' h h1 h2
    cases (Option.some.inj h)
    exact ⟨h1, h2⟩
  | cons p rest ih =>
    intro t t' h h1 h2
    unfold boundSteps at h
    split at h
    · cases h
    · rename_i t1 hstep
      obtain ⟨g1, g2⟩ := boundStep_nodup hstep h1 h2
      exact ih t1 t' h g1 g2

theorem boundSteps_keys {n : String} (ps : List Expression) :
    ∀ t t', boundSteps n ps t = some t' →
    (∀ k, k ∈ dkeys t'.action_lower_bound_constraints →
      k = n ∨ k ∈ dkeys t.action_lower_bound_constraints) ∧
    (∀ k, k ∈ dkeys t'.action_upper_bound_constraints →
      k = n ∨ k ∈ dkeys t.action_upper_bound_constraints) := by
  induction ps with
  | nil =>
    intro t t' h
    cases (Option.some.inj h)
    exact ⟨fun k hk => Or.inr hk, fun k hk => Or.inr hk⟩
  | cons p rest ih =>
    intro t t' h
    unfold boundSteps at h
    split at h
    · cases h
    · rename_i t1 hstep
      obtain ⟨g1, g2⟩ := ih t1 t' h
      obtain ⟨s1, s2⟩ := boundStep_keys hstep
      constructor
      · intro k hk
        rcases g1 k hk with hk2 | hk2
        · exact Or.inl hk2
        · exact s1 k hk2
      · intro k hk
        rcases g2 k hk with hk2 | hk2
        · exact Or.inl hk2
        · exact s2 k hk2

theorem buildBounds_nodup (items : List (String × List Expression)) :
    ∀ t t', buildBounds items t = some t' →
    (dkeys t.action_lower_bound_constraints).Nodup →
    (dkeys t.action_upper_bound_constraints).Nodup →
    (dkeys t'.action_lower_bound_constraints).Nodup ∧
    (dkeys t'.action_upper_bound_constraints).Nodup := by
  induction items with
  | nil =>
    intro t t' h h1 h2
    cases (Option.some.inj h)
    exact ⟨h1, h2⟩
  | cons item rest ih =>
    intro t t' h h1 h2
    obtain ⟨name, ps⟩ := item
    unfold buildBounds at h
    split at h
    · cases h
    · rename_i t1 hsteps
      obtain ⟨g1, g2⟩ := boundSteps_nodup ps t t1 hsteps h1 h2
      exact ih t1 t' h g1 g2

theorem buildBounds_keys (items : List (String × List Expression)) :
    ∀ t t', buildBounds items t = some t' →
    (∀ k, k ∈ dkeys t'.action_lower_bound_constraints →
      k ∈ items.map Prod.fst ∨ k ∈ dkeys t.action_lower_bound_constraints) ∧
    (∀ k, k ∈ dkeys t'.action_upper_bound_constraints →
      k ∈ items.map Prod.fst ∨ k ∈ dkeys t.action_upper_bound_constraints) := by
  induction items with
  | nil =>
    intro t t' h
    cases (Option.some.inj h)
    exact ⟨fun k hk => Or.inr hk, fun k hk => Or.inr hk⟩
  | cons item rest ih =>
    intro t t' h
    obtain ⟨name, ps⟩ := item
    unfold buildBounds at h
    split at h
    · cases h
    · rename_i t1 hsteps
      obtain ⟨g1, g2⟩ := ih t1 t' h
      obtain ⟨s1, s2⟩ := boundSteps_keys ps t t1 hsteps
      constructor
      · intro k hk
        rcases g1 k hk with hk2 | hk2
        · exact Or.inl (List.mem_cons_of_mem _ hk2)
        · rcases s1 k hk2 with rfl | hk3
          · exact Or.inl (List.mem_cons_self _ _)
          · exact Or.inr hk3
      · intro k hk
        rcases g2 k hk with hk2 | hk2
        · exact Or.inl (List.mem_cons_of_mem _ hk2)
        · rcases s2 k hk2 with rfl | hk3
          · exact Or.inl (List.mem_cons_self _ _)
          · exact Or.inr hk3

theorem build_eq_parts (d : Domain) (pt : PrecondTables) (bt : BoundTables)
    (h : Domain.build d = some (pt, bt)) :
    d.build_preconditions_table = some pt ∧
    Domain.build_action_bound_constraints_table
      pt.local_action_preconditions = some bt := by
  unfold Domain.build at h
  split at h
  · cases h
  · rename_i pt0 hpt
    split at h
    · cases h
    · rename_i bt0 hbt
      obtain ⟨rfl, rfl⟩ := Prod.mk.inj (Option.some.inj h)
      exact ⟨hpt, hbt⟩

theorem buildPreconds_spec (afl : List (String × PVariable))
    (ps : List Expression) :
    ∀ loc glob pt, buildPreconds afl ps loc glob = some pt →
    (pt.global_action_preconditions =
      glob ++ ps.filter (fun p => (localTag afl p).isNone)) ∧
    (∀ a, (dget a pt.local_action_preconditions).getD [] =
      (dget a loc).getD [] ++
        ps.filter (fun p => decide (localTag afl p = some a))) ∧
    (∀ k, k ∈ dkeys pt.local_action_preconditions →
      k ∈ dkeys loc ∨ (dget k afl).isSome = true) := by
  induction ps with
  | nil =>
    intro loc glob pt h
    cases (Option.some.inj h)
    refine ⟨by simp, fun a => by simp, fun k hk => Or.inl hk⟩
  | cons p rest ih =>
    intro loc glob pt h
    unfold buildPreconds at h
    cases hs : p.scope with
    | none => rw [hs] at h; cases h
    | some s =>
      rw [hs] at h
      dsimp only at h
      rcases hAS : actionScopeOf afl s with _ | ⟨a0, _ | ⟨b0, rest3⟩⟩
      · rw [hAS] at h
        obtain ⟨hg, hl, hk⟩ := ih loc (glob ++ [p]) pt h
        have hlt : localTag afl p = none := by
          simp [localTag, hs, hAS]
        refine ⟨?_, ?_, hk⟩
        · rw [hg]
          simp [List.filter_cons, hlt]
        · intro a
          rw [hl a]
          simp [List.filter_cons, hlt]
      · rw [hAS] at h
        obtain ⟨hg, hl, hk⟩ :=
          ih (dinsert a0 ((dget a0 loc).getD [] ++ [p]) loc) glob pt h
        have hlt : localTag afl p = some a0 := by
          simp [localTag, hs, hAS]
        have ha0 : (dget a0 afl).isSome = true := by
          have hmem : a0 ∈ actionScopeOf afl s := by
            rw [hAS]; exact List.mem_singleton.mpr rfl
          exact (List.mem_filter.mp hmem).2
        refine ⟨?_, ?_, ?_⟩
        · rw [hg]
          simp [List.filter_cons, hlt]
        · intro a
          rw [hl a]
          by_cases haa : a = a0
          · subst haa
            rw [dget_dinsert_self]
            simp [List.filter_cons, hlt, List.append_assoc]
          · have hne2 : ¬ some a0 = some a := by
              intro hh
              exact haa (Option.some.inj hh).symm
            rw [dget_dinsert_ne haa]
            simp [List.filter_cons, hlt, hne2]
        · intro k hkk
          rcases hk k hkk with hk2 | hk2
          · rcases (mem_dkeys_dinsert k a0 _ loc).mp hk2 with rfl | hk3
            · exact Or.inr ha0
            · exact Or.inl hk3
          · exact Or.inr hk2
      · rw [hAS] at h
        obtain ⟨hg, hl, hk⟩ := ih loc (glob ++ [p]) pt h
        have hlt : localTag afl p = none := by
          simp [localTag, hs, hAS]
        refine ⟨?_, ?_, hk⟩
        · rw [hg]
          simp [List.filter_cons, hlt]
        · intro a
          rw [hl a]
          simp [List.filter_cons, hlt]

/-- C5: `build()` files each precondition exactly once: a precondition
whose scope touches exactly one declared action fluent is appended to the
`local_action_preconditions` bucket of that action, every other
precondition (zero or two-or-more declared action fluents in scope) is
appended to `global_action_preconditions`, and both tables preserve the
relative encounter order of the `preconds` list. -/
theorem precondition_partitioning (d : Domain) (pt : PrecondTables)
    (h : d.build_preconditions_table = some pt) :
    pt.global_action_preconditions =
      d.preconds.filter (fun p => (localTag d.action_fluents p).isNone) ∧
    ∀ a : String, (dget a pt.local_action_preconditions).getD [] =
      d.preconds.filter
        (fun p => decide (localTag d.action_fluents p = some a)) := by
  obtain ⟨hg, hl, _⟩ :=
    buildPreconds_spec d.action_fluents d.preconds [] [] pt h
  exact ⟨by simpa using hg, fun a => by simpa [dget] using hl a⟩

theorem precondition_partitioning_witness :
    dEx5.build_preconditions_table = some ptEx5 ∧
    ptEx5.global_action_preconditions =
      dEx5.preconds.filter
        (fun p => (localTag dEx5.action_fluents p).isNone) ∧
    (dget "a/0" ptEx5.local_action_preconditions).getD [] =
      dEx5.preconds.filter
        (fun p => decide (localTag dEx5.action_fluents p = some "a/0")) :=
  ⟨rfl, (precondition_partitioning dEx5 ptEx5 rfl).1,
   (precondition_partitioning dEx5 ptEx5 rfl).2 "a/0"⟩

/-- C3: after `build()` each bound-constraint mapping has duplicate-free
keys (every action fluent appears at most once as a key); a single
precondition contributes to at most one of the two bound mappings — when
the lower-bound extraction succeeds only the lower table changes, and the
upper-bound extraction is attempted only when the lower-bound test failed,
in which case only the upper table changes; and a later bound for the same
action silently overwrites an earlier one, with lookup returning the later
value and no error raised. -/
theorem bound_tables_invariants :
    (∀ (d : Domain) (pt : PrecondTables) (bt : BoundTables),
      Domain.build d = some (pt, bt) →
      (dkeys bt.action_lower_bound_constraints).Nodup ∧
      (dkeys bt.action_upper_bound_constraints).Nodup) ∧
    (∀ (n : String) (tb : BoundTables) (p be : Expression) (b : PyVal),
      boundsCandidate p = some (some be) →
      extract_lower_bound n be = some (some b) →
      boundStep n tb p =
        some ⟨dinsert n b tb.action_lower_bound_constraints,
              tb.action_upper_bound_constraints⟩ ∧
      dget n (dinsert n b tb.action_lower_bound_constraints) = some b) ∧
    (∀ (n : String) (tb : BoundTables) (p be : Expression) (b : PyVal),
      boundsCandidate p = some (some be) →
      extract_lower_bound n be = some none →
      extract_upper_bound n be = some (some b) →
      boundStep n tb p =
        some ⟨tb.action_lower_bound_constraints,
              dinsert n b tb.action_upper_bound_constraints⟩ ∧
      dget n (dinsert n b tb.action_upper_bound_constraints) = some b) := by
  refine ⟨?_, ?_, ?_⟩
  · intro d pt bt h
    obtain ⟨hpt, hbt⟩ := build_eq_parts d pt bt h
    exact buildBounds_nodup pt.local_action_preconditions ⟨[], []⟩ bt hbt
      (by simp [dkeys]) (by simp [dkeys])
  · intro n tb p be b hc hl
    exact ⟨by simp [boundStep, hc, hl], dget_dinsert_self n b _⟩
  · intro n tb p be b hc hl hu
    exact ⟨by simp [boundStep, hc, hl, hu], dget_dinsert_self n b _⟩

theorem bound_tables_invariants_witness :
    (Domain.build dEx = some (ptEx, btEx) ∧
     ((dkeys btEx.action_lower_bound_constraints).Nodup ∧
      (dkeys btEx.action_upper_bound_constraints).Nodup)) ∧
    (boundsCandidate precondEx = some (some precondEx) ∧
     extract_lower_bound "a/0" precondEx =
       some (some (PyVal.vexpr (numNode 0))) ∧
     (boundStep "a/0" ⟨[], []⟩ precondEx =
        some ⟨dinsert "a/0" (PyVal.vexpr (numNode 0)) [], []⟩ ∧
      dget "a/0" (dinsert "a/0" (PyVal.vexpr (numNode 0)) []) =
        some (PyVal.vexpr (numNode 0)))) ∧
    (boundsCandidate upperEx = some (some upperEx) ∧
     extract_lower_bound "a/0" upperEx = some none ∧
     extract_upper_bound "a/0" upperEx =
       some (some (PyVal.vexpr (numNode 5))) ∧
     (boundStep "a/0" ⟨[], []⟩ upperEx =
        some ⟨[], dinsert "a/0" (PyVal.vexpr (numNode 5)) []⟩ ∧
      dget "a/0" (dinsert "a/0" (PyVal.vexpr (numNode 5)) []) =
        some (PyVal.vexpr (numNode 5)))) :=
  ⟨⟨rfl, bound_tables_invariants.1 dEx ptEx btEx rfl⟩,
   ⟨rfl, rfl,
    bound_tables_invariants.2.1 "a/0" ⟨[], []⟩ precondEx precondEx
      (PyVal.vexpr (numNode 0)) rfl rfl⟩,
   ⟨rfl, rfl, rfl,
    bound_tables_invariants.2.2 "a/0" ⟨[], []⟩ upperEx upperEx
      (PyVal.vexpr (numNode 5)) rfl rfl rfl⟩⟩

/-- C10: after `build()`, every key of `local_action_preconditions` is a
key of the `action_fluents` mapping, and every key of
`action_lower_bound_constraints` and of `action_upper_bound_constraints`
is a key of `local_action_preconditions` — no table acquires a key that is
not a declared action-fluent name. -/
theorem build_table_key_domains (d : Domain) (pt : PrecondTables)
    (bt : BoundTables) (h : Domain.build d = some (pt, bt)) :
    (∀ k, k ∈ dkeys pt.local_action_preconditions →
      k ∈ dkeys d.action_fluents) ∧
    (∀ k, k ∈ dkeys bt.action_lower_bound_constraints →
      k ∈ dkeys pt.local_action_preconditions) ∧
    (∀ k, k ∈ dkeys bt.action_upper_bound_constraints →
      k ∈ dkeys pt.local_action_preconditions) := by
  obtain ⟨hpt, hbt⟩ := build_eq_parts d pt bt h
  obtain ⟨_, _, hkeys⟩ :=
    buildPreconds_spec d.action_fluents d.preconds [] [] pt hpt
  obtain ⟨hlo, hup⟩ :=
    buildBounds_keys pt.local_action_preconditions ⟨[], []⟩ bt hbt
  refine ⟨?_, ?_, ?_⟩
  · intro k hk
    rcases hkeys k hk with hk2 | hk2
    · simp [dkeys] at hk2
    · exact (dget_isSome_iff_mem_dkeys k d.action_fluents).mp hk2
  · intro k hk
    rcases hlo k hk with hk2 | hk2
    · exact hk2
    · simp [dkeys] at hk2
  · intro k hk
    rcases hup k hk with hk2 | hk2
    · exact hk2
    · simp [dkeys] at hk2

theorem build_table_key_domains_witness :
    Domain.build dEx = some (ptEx, btEx) ∧
    "a/0" ∈ dkeys dEx.action_fluents ∧
    "a/0" ∈ dkeys ptEx.local_action_preconditions :=
  ⟨rfl,
   (build_table_key_domains dEx ptEx btEx rfl).1 "a/0" (by decide),
   (build_table_key_domains dEx ptEx btEx rfl).2.1 "a/0" (by decide)⟩
